import Mathlib

/-
  Shallow embedding of the virtual-file core of the sqldir package
  (class SqlDir in sqldir/__init__.py) together with its record store.

  Python byte strings are modelled as lists of byte values (List Nat),
  Python text strings as lists of characters (List Char), and the file
  position as an Int, because seek places no bounds on it and Python
  slice semantics on negative indices are observable.  Fallible methods
  return Except Err; the store round-trips of open and close are modelled
  by explicit state passing.  Only the default text codec (utf-8) is
  modelled, since it is the codec every construction in the package uses;
  the object state left behind when a method raises is not modelled
  (the exception propagates to the caller either way).
-/

namespace Sqldir

abbrev Bytes := List Nat

/-- Resolution of one Python slice endpoint against a sequence of the
given length: negative endpoints count from the end and clamp at zero,
nonnegative endpoints clamp at the length. -/
def sliceIndex (len : Nat) (i : Int) : Nat :=
  if i < 0 then ((len : Int) + i).toNat else min i.toNat len

/-- Python slice buf[s:e] with step one. -/
def pySlice (buf : Bytes) (s e : Int) : Bytes :=
  (buf.take (sliceIndex buf.length e)).drop (sliceIndex buf.length s)

/-- Python slice buf[s:]. -/
def pySliceFrom (buf : Bytes) (s : Int) : Bytes :=
  buf.drop (sliceIndex buf.length s)

/-- Python slice buf[:e]. -/
def pySliceTo (buf : Bytes) (e : Int) : Bytes :=
  buf.take (sliceIndex buf.length e)

/-- First index at or after the head of the list holding the byte t,
as an offset into the list. -/
def findIdxFrom (t : Nat) : Bytes → Option Nat
  | [] => none
  | b :: bs => if b = t then some 0 else (findIdxFrom t bs).map (· + 1)

/-- Python bytes.find(bytes([t]), start): the lowest absolute index at
or after the resolved start whose byte is t, none when absent. -/
def pyFind (buf : Bytes) (t : Nat) (start : Int) : Option Nat :=
  (findIdxFrom t (buf.drop (sliceIndex buf.length start))).map
    (sliceIndex buf.length start + ·)

/-- utf-8 encoding of one unicode scalar value, as Python str.encode
produces it. -/
def utf8EncodeChar (c : Char) : Bytes :=
  let n := c.toNat
  if n < 0x80 then [n]
  else if n < 0x800 then [0xC0 + n / 0x40, 0x80 + n % 0x40]
  else if n < 0x10000 then
    [0xE0 + n / 0x1000, 0x80 + (n / 0x40) % 0x40, 0x80 + n % 0x40]
  else
    [0xF0 + n / 0x40000, 0x80 + (n / 0x1000) % 0x40,
     0x80 + (n / 0x40) % 0x40, 0x80 + n % 0x40]

/-- utf-8 encoding of a text string. -/
def utf8Encode (s : List Char) : Bytes :=
  (s.map utf8EncodeChar).flatten

/-- Continuation byte test for the utf-8 decoder. -/
def isCont (b : Nat) : Bool := 0x80 ≤ b && b < 0xC0

/-- One step of strict utf-8 decoding as Python bytes.decode performs
it: decode the scalar value starting at the head, rejecting overlong
forms, surrogates and out-of-range scalars, and return it with the
remaining bytes; none on failure or on empty input. -/
def utf8DecodeOne : Bytes → Option (Char × Bytes)
  | [] => none
  | b :: bs =>
    if b < 0x80 then some (Char.ofNat b, bs)
    else if b < 0xC2 then none
    else if b < 0xE0 then
      match bs with
      | b1 :: bs1 =>
        if isCont b1 then
          some (Char.ofNat ((b - 0xC0) * 0x40 + (b1 - 0x80)), bs1)
        else none
      | [] => none
    else if b < 0xF0 then
      match bs with
      | b1 :: b2 :: bs2 =>
        if isCont b1 && isCont b2 then
          let n := (b - 0xE0) * 0x1000 + (b1 - 0x80) * 0x40 + (b2 - 0x80)
          if 0x800 ≤ n && (n < 0xD800 || 0xE000 ≤ n) then
            some (Char.ofNat n, bs2)
          else none
        else none
      | _ => none
    else if b < 0xF5 then
      match bs with
      | b1 :: b2 :: b3 :: bs3 =>
        if isCont b1 && isCont b2 && isCont b3 then
          let n := (b - 0xF0) * 0x40000 + (b1 - 0x80) * 0x1000 +
                   (b2 - 0x80) * 0x40 + (b3 - 0x80)
          if 0x10000 ≤ n && n < 0x110000 then
            some (Char.ofNat n, bs3)
          else none
        else none
      | _ => none
    else none

/-- Strict utf-8 decoding of a whole byte string, by iterating
utf8DecodeOne; the fuel bounds the number of characters, and one unit
per input byte always suffices since every step consumes at least one
byte. -/
def utf8DecodeAux : Nat → Bytes → Option (List Char)
  | _, [] => some []
  | 0, _ :: _ => none
  | fuel + 1, b :: bs =>
    match utf8DecodeOne (b :: bs) with
    | none => none
    | some (c, rest) => (utf8DecodeAux fuel rest).map (c :: ·)

/-- Python bytes.decode with the utf-8 codec: some on success, none on
UnicodeDecodeError. -/
def utf8Decode (l : Bytes) : Option (List Char) :=
  utf8DecodeAux l.length l

/-- The record store: the files table of the backing database, keyed by
filename, with the pending view a connection reads and the committed
view that commit publishes. -/
structure Store where
  committed : List (String × Bytes)
  pending : List (String × Bytes)
deriving DecidableEq

/-- SELECT content FROM files WHERE filename = name. -/
def lookupRecord (recs : List (String × Bytes)) (name : String) : Option Bytes :=
  match recs.find? (fun r => r.1 = name) with
  | some r => some r.2
  | none => none

/-- INSERT OR REPLACE INTO files (filename, content) VALUES (name, c). -/
def upsertRecord : List (String × Bytes) → String → Bytes → List (String × Bytes)
  | [], n, c => [(n, c)]
  | r :: rs, n, c => if r.1 = n then (n, c) :: rs else r :: upsertRecord rs n c

def Store.get (st : Store) (name : String) : Option Bytes :=
  lookupRecord st.pending name

def Store.upsert (st : Store) (name : String) (content : Bytes) : Store :=
  { st with pending := upsertRecord st.pending name content }

def Store.commit (st : Store) : Store :=
  { st with committed := st.pending }

/-- Error conditions the SqlDir methods raise. -/
inductive Err where
  /-- ValueError: i/o operation on closed file. -/
  | closedHandle
  /-- UnsupportedOperation: file not open for reading. -/
  | notReadable
  /-- UnsupportedOperation: file not open for writing. -/
  | notWritable
  /-- ValueError: encoding is not set. -/
  | encodingNotSet
  /-- TypeError: write argument must be bytes, not str. -/
  | typeMismatch
  /-- UnicodeDecodeError from bytes.decode. -/
  | decodeFailure
deriving DecidableEq

/-- A Python value crossing the file interface: raw bytes or text. -/
inductive PyData where
  | bytes (b : Bytes)
  | str (s : List Char)
deriving DecidableEq

def PyData.isEmptyData : PyData → Bool
  | .bytes b => b.isEmpty
  | .str s => s.isEmpty

def utf8Name : List Char := "utf-8".data

/-- The in-memory state of class SqlDir. -/
structure SqlDir where
  name : String
  mode : List Char
  isBinary : Bool
  encoding : Option (List Char)
  buffer : Bytes
  pos : Int
  closed : Bool
deriving DecidableEq

namespace SqlDir

/-- SqlDir.__init__: derive the binary flag and effective encoding, load
the record when the mode has a read, append or update flag, and place
the position at the end for append, else at zero.  (The Path
normalisation of the name is deterministic and is left to the caller;
the claims only need that equal names address equal records.) -/
def init (name : String) (mode : List Char) (st : Store)
    (encoding : Option (List Char)) : SqlDir :=
  let isBinary := mode.contains 'b'
  let enc0 := if isBinary then none else encoding
  let enc := if !isBinary && enc0.isNone then some utf8Name else enc0
  let buffer :=
    if mode.contains 'r' || mode.contains 'a' || mode.contains '+' then
      match st.get name with
      | some content => content
      | none => []
    else []
  { name := name, mode := mode, isBinary := isBinary, encoding := enc,
    buffer := buffer,
    pos := if mode.contains 'a' then (buffer.length : Int) else 0,
    closed := false }

def readable (f : SqlDir) : Bool :=
  f.mode.contains 'r' || f.mode.contains '+'

def writable (f : SqlDir) : Bool :=
  f.mode.contains 'w' || f.mode.contains 'a' || f.mode.contains '+'

/-- The decode step shared verbatim by read, readline and next: return
raw bytes in binary mode, else decode with the set encoding. -/
def emit (f : SqlDir) (data : Bytes) : Except Err PyData :=
  if f.isBinary then .ok (.bytes data)
  else
    match f.encoding with
    | none => .error .encodingNotSet
    | some _ =>
      match utf8Decode data with
      | some s => .ok (.str s)
      | none => .error .decodeFailure

/-- SqlDir.write. -/
def write (f : SqlDir) (data : PyData) : Except Err (Nat × SqlDir) :=
  if f.closed then .error .closedHandle
  else if !f.writable then .error .notWritable
  else
    let enc : Except Err Bytes :=
      match data with
      | .str s =>
        if !f.isBinary then
          match f.encoding with
          | none => .error .encodingNotSet
          | some _ => .ok (utf8Encode s)
        else .error .typeMismatch
      | .bytes b => .ok b
    match enc with
    | .error e => .error e
    | .ok bs =>
      let newBuf := pySliceTo f.buffer f.pos ++ bs ++
                    pySliceFrom f.buffer (f.pos + bs.length)
      .ok (bs.length, { f with buffer := newBuf, pos := f.pos + bs.length })

/-- SqlDir.read. -/
def read (f : SqlDir) (size : Int) : Except Err (PyData × SqlDir) :=
  if f.closed then .error .closedHandle
  else if !f.readable then .error .notReadable
  else
    let dp : Bytes × Int :=
      if size < 0 then (pySliceFrom f.buffer f.pos, (f.buffer.length : Int))
      else
        let d := pySlice f.buffer f.pos (f.pos + size)
        (d, f.pos + d.length)
    match f.emit dp.1 with
    | .error e => .error e
    | .ok out => .ok (out, { f with pos := dp.2 })

/-- The newline scan both readline and next perform verbatim: find the
next newline byte from the position; the line runs to just past it, or
to the end of the buffer when absent; paired with the position just past
the returned slice. -/
def lineSpan (f : SqlDir) : Bytes × Int :=
  match pyFind f.buffer 10 f.pos with
  | none => (pySliceFrom f.buffer f.pos, (f.buffer.length : Int))
  | some idx => (pySlice f.buffer f.pos ((idx : Int) + 1), (idx : Int) + 1)

/-- SqlDir.readline.  Note the cap branch mirrors the source order of
operations: the line is truncated first, so the rewind subtracts the
length of the already-truncated line and is always zero. -/
def readline (f : SqlDir) (size : Int) : Except Err (PyData × SqlDir) :=
  if f.closed then .error .closedHandle
  else if !f.readable then .error .notReadable
  else if (f.buffer.length : Int) ≤ f.pos then
    .ok ((if f.isBinary then .bytes [] else .str []), f)
  else
    let lp : Bytes × Int := lineSpan f
    let lp2 : Bytes × Int :=
      if 0 ≤ size ∧ size < (lp.1.length : Int) then
        let t := pySliceTo lp.1 size
        (t, lp.2 - ((t.length : Int) - size))
      else lp
    match f.emit lp2.1 with
    | .error e => .error e
    | .ok out => .ok (out, { f with pos := lp2.2 })

/-- One pass of the SqlDir.readlines loop, with fuel for the recursion;
the fuel used by readlines itself always suffices. -/
def readlinesAux (hint : Int) : Nat → SqlDir → List PyData → Nat →
    Except Err (List PyData × SqlDir)
  | 0, f, acc, _ => .ok (acc.reverse, f)
  | fuel + 1, f, acc, total =>
    match f.readline (-1) with
    | .error e => .error e
    | .ok (line, f1) =>
      if line.isEmptyData then .ok (acc.reverse, f1)
      else
        let count : Except Err Nat :=
          match line with
          | .bytes b => .ok b.length
          | .str s =>
            match f1.encoding with
            | none => .error .encodingNotSet
            | some _ => .ok (utf8Encode s).length
        match count with
        | .error e => .error e
        | .ok n =>
          if 0 < hint ∧ hint ≤ ((total + n : Nat) : Int) then
            .ok ((line :: acc).reverse, f1)
          else readlinesAux hint fuel f1 (line :: acc) (total + n)

/-- SqlDir.readlines. -/
def readlines (f : SqlDir) (hint : Int) : Except Err (List PyData × SqlDir) :=
  if f.closed then .error .closedHandle
  else readlinesAux hint (f.buffer.length + 1) f [] 0

/-- SqlDir.__iter__: reset the position and hand back the handle. -/
def iterStart (f : SqlDir) : Except Err SqlDir :=
  if f.closed then .error .closedHandle
  else .ok { f with pos := 0 }

/-- SqlDir.__next__, with StopIteration modelled as ok none. -/
def next (f : SqlDir) : Except Err (Option PyData × SqlDir) :=
  if f.closed then .error .closedHandle
  else if (f.buffer.length : Int) ≤ f.pos then .ok (none, f)
  else
    let lp : Bytes × Int := lineSpan f
    match f.emit lp.1 with
    | .error e => .error e
    | .ok out => .ok (some out, { f with pos := lp.2 })

/-- SqlDir.seek. -/
def seek (f : SqlDir) (offset : Int) (whence : Int) : Except Err (Int × SqlDir) :=
  if f.closed then .error .closedHandle
  else
    let p : Int :=
      if whence = 0 then offset
      else if whence = 1 then f.pos + offset
      else if whence = 2 then (f.buffer.length : Int) + offset
      else f.pos
    .ok (p, { f with pos := p })

/-- SqlDir.tell. -/
def tell (f : SqlDir) : Except Err Int :=
  if f.closed then .error .closedHandle
  else .ok f.pos

/-- SqlDir.flush: only the closed check. -/
def flush (f : SqlDir) : Except Err Unit :=
  if f.closed then .error .closedHandle
  else .ok ()

/-- SqlDir.close: idempotent; on the first call of a handle whose mode
has a write, append or update flag, upsert the buffer and commit. -/
def close (f : SqlDir) (st : Store) : SqlDir × Store :=
  if f.closed then (f, st)
  else
    let f1 := { f with closed := true }
    if f.mode.contains 'w' || f.mode.contains 'a' || f.mode.contains '+' then
      (f1, (st.upsert f.name f.buffer).commit)
    else (f1, st)

end SqlDir

end Sqldir

namespace Sqldir

/-- Mode string wb. -/
def modeWB : List Char := ['w', 'b']

/-- Mode string ab. -/
def modeAB : List Char := ['a', 'b']

/-- Mode string rb. -/
def modeRB : List Char := ['r', 'b']

/-- Mode string r+b. -/
def modeRPB : List Char := ['r', '+', 'b']

/-- Mode string w. -/
def modeW : List Char := ['w']

/-- Mode string r. -/
def modeR : List Char := ['r']

/-- The write-close-reopen-read scenario of the round-trip property:
open p over st in mode wb, write b, close, reopen in mode rb against the
resulting store, read to end, and return what the read yields. -/
def writeCloseRead (st : Store) (p : String) (b : Bytes) : Except Err PyData :=
  let f := SqlDir.init p modeWB st none
  match f.write (.bytes b) with
  | .error e => .error e
  | .ok (_, f1) =>
    let c := f1.close st
    let g := SqlDir.init p modeRB c.2 none
    match g.read (-1) with
    | .error e => .error e
    | .ok (d, _) => .ok d

/-- The append scenario: write a in mode wb and close, reopen in mode ab
and note the position the append open lands on, write b and close,
reopen in mode rb and read to end; returns that position and the read. -/
def appendRoundTrip (st : Store) (p : String) (a b : Bytes) :
    Except Err (Int × PyData) :=
  let f := SqlDir.init p modeWB st none
  match f.write (.bytes a) with
  | .error e => .error e
  | .ok (_, f1) =>
    let c1 := f1.close st
    let g := SqlDir.init p modeAB c1.2 none
    match g.write (.bytes b) with
    | .error e => .error e
    | .ok (_, g1) =>
      let c2 := g1.close c1.2
      let h := SqlDir.init p modeRB c2.2 none
      match h.read (-1) with
      | .error e => .error e
      | .ok (d, _) => .ok (g.pos, d)

/-- An open read-write binary handle on the bytes of abcdef, used by the
concrete counterexamples and witnesses below. -/
def rwFile : SqlDir :=
  { name := "demo.bin", mode := modeRPB, isBinary := true, encoding := none,
    buffer := [97, 98, 99, 100, 101, 102], pos := 0, closed := false }

/-- The handle rwFile after seek(-2, 0). -/
def rwFileNeg : SqlDir := { rwFile with pos := -2 }

/-- An open readable binary handle on the bytes of the line abcdef
followed by a newline. -/
def lineFile : SqlDir :=
  { name := "line.bin", mode := modeRB, isBinary := true, encoding := none,
    buffer := [97, 98, 99, 100, 101, 102, 10], pos := 0, closed := false }

/-- An open writable text handle with the default encoding and the bytes
of AB in its buffer. -/
def textFile : SqlDir :=
  { name := "note.txt", mode := modeW, isBinary := false,
    encoding := some utf8Name, buffer := [65, 66], pos := 0, closed := false }

/-- A closed handle, as close leaves it. -/
def closedFile : SqlDir := { rwFile with closed := true }

/-- A store with one committed record, demo.bin holding xyz. -/
def demoStore : Store :=
  { committed := [("demo.bin", [120, 121, 122])],
    pending := [("demo.bin", [120, 121, 122])] }

/-- A readable text handle whose buffer is the two-byte utf-8 encoding
of one accented character, positioned at -1 as seek(-1, 0) leaves it:
the position splits the character. -/
def accentFile : SqlDir :=
  { name := "accent.txt", mode := modeR, isBinary := false,
    encoding := some utf8Name, buffer := [195, 169], pos := -1,
    closed := false }

end Sqldir

namespace Sqldir

theorem lookupRecord_upsertRecord (recs : List (String × Bytes)) (n : String)
    (c : Bytes) : lookupRecord (upsertRecord recs n c) n = some c := by
  induction recs with
  | nil => simp [upsertRecord, lookupRecord]
  | cons r rs ih =>
    by_cases h : r.1 = n
    · simp [upsertRecord, h, lookupRecord]
    · simp [upsertRecord, h, lookupRecord, List.find?] at ih ⊢
      exact ih

theorem take_min_length {α : Type} (l : List α) (n : Nat) :
    l.take (min n l.length) = l.take n := by
  rcases Nat.le_total n l.length with h | h
  · rw [Nat.min_eq_left h]
  · rw [Nat.min_eq_right h, List.take_length, List.take_of_length_le h]

theorem drop_min_length {α : Type} (l : List α) (n : Nat) :
    l.drop (min n l.length) = l.drop n := by
  rcases Nat.le_total n l.length with h | h
  · rw [Nat.min_eq_left h]
  · rw [Nat.min_eq_right h, List.drop_length, List.drop_of_length_le h]

theorem sliceIndex_nonneg (len : Nat) (i : Int) (h : 0 ≤ i) :
    sliceIndex len i = min i.toNat len := by
  simp [sliceIndex, Int.not_lt.mpr h]

theorem pySliceTo_nonneg (buf : Bytes) (p : Int) (h : 0 ≤ p) :
    pySliceTo buf p = buf.take p.toNat := by
  rw [pySliceTo, sliceIndex_nonneg _ _ h, take_min_length]

theorem pySliceFrom_nonneg (buf : Bytes) (p : Int) (h : 0 ≤ p) :
    pySliceFrom buf p = buf.drop p.toNat := by
  rw [pySliceFrom, sliceIndex_nonneg _ _ h, drop_min_length]

theorem pySliceFrom_neg (buf : Bytes) (p : Int) (h : p < 0) :
    pySliceFrom buf p = buf.drop ((buf.length + p).toNat) := by
  simp [pySliceFrom, sliceIndex, h]

theorem pySlice_exact (buf : Bytes) (n k : Nat) (h : n + k ≤ buf.length) :
    pySlice buf (n : Int) ((n : Int) + (k : Int)) = (buf.drop n).take k := by
  have h1 : sliceIndex buf.length (n : Int) = n := by
    rw [sliceIndex_nonneg _ _ (Int.natCast_nonneg n), Int.toNat_natCast]
    exact Nat.min_eq_left (by omega)
  have h2 : sliceIndex buf.length ((n : Int) + (k : Int)) = n + k := by
    rw [show (n : Int) + (k : Int) = ((n + k : Nat) : Int) by push_cast; ring,
      sliceIndex_nonneg _ _ (Int.natCast_nonneg _), Int.toNat_natCast]
    exact Nat.min_eq_left h
  rw [pySlice, h1, h2, List.drop_take, Nat.add_sub_cancel_left]

theorem findIdxFrom_lt_length {t : Nat} :
    ∀ {l : Bytes} {j : Nat}, findIdxFrom t l = some j → j < l.length := by
  intro l
  induction l with
  | nil => intro j h; simp [findIdxFrom] at h
  | cons b bs ih =>
    intro j h
    simp only [findIdxFrom] at h
    split at h
    · cases h; simp
    · obtain ⟨j1, hj1, rfl⟩ := Option.map_eq_some'.mp h
      have := ih hj1
      simp only [List.length_cons]
      omega

theorem pyFind_bounds {buf : Bytes} {t : Nat} {s : Int} {idx : Nat}
    (h : pyFind buf t s = some idx) :
    sliceIndex buf.length s ≤ idx ∧ idx < buf.length := by
  obtain ⟨j, hj, rfl⟩ := Option.map_eq_some'.mp h
  have hlt := findIdxFrom_lt_length hj
  rw [List.length_drop] at hlt
  omega

theorem utf8Decode_cons_ne_nil {b : Nat} {bs : Bytes} {s : List Char}
    (h : utf8Decode (b :: bs) = some s) : s ≠ [] := by
  intro hs
  subst hs
  simp only [utf8Decode, List.length_cons, utf8DecodeAux] at h
  split at h
  · exact Option.noConfusion h
  · obtain ⟨t, _, ht⟩ := Option.map_eq_some'.mp h
    exact List.noConfusion ht

end Sqldir

namespace Sqldir

/-- A read-only text handle on loaded content, for the witnesses. -/
def roFile : SqlDir :=
  { name := "demo.bin", mode := modeR, isBinary := false,
    encoding := some utf8Name, buffer := [120, 121, 122], pos := 0,
    closed := false }

/-- Claim C8: once close has completed on a handle, every read, write,
readline, readlines, seek, tell, flush or iteration call fails with the
closed-handle error, while a second close is a no-op that fails nothing
and leaves the store untouched. -/
theorem C8_closed_handle_rejection (f : SqlDir) (st : Store)
    (h : f.closed = true) :
    (∀ sz, f.read sz = .error .closedHandle) ∧
    (∀ d, f.write d = .error .closedHandle) ∧
    (∀ sz, f.readline sz = .error .closedHandle) ∧
    (∀ hint, f.readlines hint = .error .closedHandle) ∧
    (∀ o w, f.seek o w = .error .closedHandle) ∧
    f.tell = .error .closedHandle ∧
    f.flush = .error .closedHandle ∧
    f.iterStart = .error .closedHandle ∧
    f.next = .error .closedHandle ∧
    f.close st = (f, st) := by
  refine ⟨?_, ?_, ?_, ?_, ?_, ?_, ?_, ?_, ?_, ?_⟩ <;>
    simp [SqlDir.read, SqlDir.write, SqlDir.readline, SqlDir.readlines,
      SqlDir.seek, SqlDir.tell, SqlDir.flush, SqlDir.iterStart,
      SqlDir.next, SqlDir.close, h]

/-- Concrete application of the closed-handle theorem. -/
theorem C8_closed_handle_rejection_witness :
    closedFile.read (-1) = .error .closedHandle ∧
    closedFile.write (.bytes [1]) = .error .closedHandle ∧
    closedFile.tell = .error .closedHandle ∧
    closedFile.close demoStore = (closedFile, demoStore) := by
  have h := C8_closed_handle_rejection closedFile demoStore rfl
  exact ⟨h.1 (-1), h.2.1 (.bytes [1]), h.2.2.2.2.2.1,
    h.2.2.2.2.2.2.2.2.2⟩

/-- A binary read of k bytes at a nonnegative position n within bounds
returns exactly the bytes at offsets n to n + k - 1 and advances the
position to n + k. -/
theorem read_nonneg_binary (f : SqlDir) (h : f.closed = false)
    (hr : f.readable = true) (hb : f.isBinary = true) (n k : Nat)
    (hp : f.pos = (n : Int)) (hnk : n + k ≤ f.buffer.length) :
    f.read (k : Int) = .ok (.bytes ((f.buffer.drop n).take k),
      { f with pos := ((n + k : Nat) : Int) }) := by
  have hkn : ¬ ((k : Int) < 0) := Int.not_lt.mpr (Int.natCast_nonneg k)
  have hlen : ((f.buffer.drop n).take k).length = k := by
    simp only [List.length_take, List.length_drop]
    omega
  simp [SqlDir.read, h, hr, hb, SqlDir.emit, hp, hkn,
    pySlice_exact f.buffer n k hnk, hlen, Nat.cast_add]

/-- Claim C9: seek sets the position absolutely for whence 0, relatively
for whence 1, from the end for whence 2, is a no-op otherwise, and
returns the resulting position; tell reports the position without side
effects; and after an absolute seek to n, a read of k on a buffer of
length at least n + k yields exactly the k bytes at offset n and leaves
tell at n + k. -/
theorem C9_seek_tell_read_consistency (f : SqlDir) (h : f.closed = false) :
    (∀ o : Int, f.seek o 0 = .ok (o, { f with pos := o })) ∧
    (∀ o : Int, f.seek o 1 = .ok (f.pos + o, { f with pos := f.pos + o })) ∧
    (∀ o : Int, f.seek o 2 =
      .ok ((f.buffer.length : Int) + o,
           { f with pos := (f.buffer.length : Int) + o })) ∧
    (∀ o w : Int, w ≠ 0 → w ≠ 1 → w ≠ 2 → f.seek o w = .ok (f.pos, f)) ∧
    f.tell = .ok f.pos ∧
    (f.isBinary = true → f.readable = true → ∀ n k : Nat,
      n + k ≤ f.buffer.length →
      ({ f with pos := (n : Int) } : SqlDir).read (k : Int) =
        .ok (.bytes ((f.buffer.drop n).take k),
             { f with pos := ((n + k : Nat) : Int) }) ∧
      SqlDir.tell { f with pos := ((n + k : Nat) : Int) } =
        .ok ((n + k : Nat) : Int)) := by
  refine ⟨?_, ?_, ?_, ?_, ?_, ?_⟩
  · intro o; simp [SqlDir.seek, h]
  · intro o; simp [SqlDir.seek, h]
  · intro o; simp [SqlDir.seek, h]
  · intro o w h0 h1 h2
    simp [SqlDir.seek, h, h0, h1, h2]
    rw [← h]
  · simp [SqlDir.tell, h]
  · intro hb hr n k hnk
    exact ⟨read_nonneg_binary { f with pos := (n : Int) } h hr hb n k rfl hnk,
      by simp [SqlDir.tell, h]⟩

/-- Concrete application of the seek, tell and read theorem. -/
theorem C9_seek_tell_read_consistency_witness :
    rwFile.seek 2 0 = .ok (2, { rwFile with pos := 2 }) ∧
    ({ rwFile with pos := (2 : Int) } : SqlDir).read 3 =
      .ok (.bytes [99, 100, 101], { rwFile with pos := 5 }) := by
  have h := C9_seek_tell_read_consistency rwFile rfl
  refine ⟨h.1 2, ?_⟩
  have h2 := (h.2.2.2.2.2 rfl rfl 2 3 (by decide)).1
  simpa using h2

/-- Claim C7: the first close persists exactly when the mode has a
write, append or update flag; in that case the whole final buffer
replaces any prior record for the name in the pending view and the
commit publishes the pending view, while a close in a read-only mode
leaves the store untouched. -/
theorem C7_close_persistence (f : SqlDir) (st : Store) (h : f.closed = false) :
    ((f.mode.contains 'w' || f.mode.contains 'a' || f.mode.contains '+') =
        true →
      f.close st =
        ({ f with closed := true },
         { committed := upsertRecord st.pending f.name f.buffer,
           pending := upsertRecord st.pending f.name f.buffer }) ∧
      lookupRecord (f.close st).2.committed f.name = some f.buffer) ∧
    ((f.mode.contains 'w' || f.mode.contains 'a' || f.mode.contains '+') =
        false →
      f.close st = ({ f with closed := true }, st)) := by
  constructor
  · intro hm
    have hc : f.close st =
        ({ f with closed := true },
         { committed := upsertRecord st.pending f.name f.buffer,
           pending := upsertRecord st.pending f.name f.buffer }) := by
      simp only [SqlDir.close]
      rw [if_neg (by simp [h]), if_pos hm]
      rfl
    refine ⟨hc, ?_⟩
    rw [hc]
    exact lookupRecord_upsertRecord _ _ _
  · intro hm
    simp only [SqlDir.close]
    rw [if_neg (by simp [h]), if_neg (by rw [hm]; simp)]

/-- Concrete application of the close persistence theorem: a text-mode
write handle persists its buffer on close, a read-only handle leaves the
store unchanged. -/
theorem C7_close_persistence_witness :
    lookupRecord ((textFile.close demoStore).2.committed) textFile.name =
      some textFile.buffer ∧
    roFile.close demoStore = ({ roFile with closed := true }, demoStore) := by
  exact ⟨((C7_close_persistence textFile demoStore rfl).1 rfl).2,
    (C7_close_persistence roFile demoStore rfl).2 rfl⟩

end Sqldir

namespace Sqldir

/-- Claim C5: writing b at path p in write mode, closing, reopening p in
read mode and reading to end yields exactly b, over any starting store. -/
theorem C5_round_trip (st : Store) (p : String) (b : Bytes) :
    writeCloseRead st p b = .ok (.bytes b) := by
  have hinit : SqlDir.init p modeWB st none =
      ⟨p, modeWB, true, none, [], 0, false⟩ := rfl
  have hwrite : (⟨p, modeWB, true, none, [], 0, false⟩ : SqlDir).write
      (.bytes b) =
      .ok (b.length, ⟨p, modeWB, true, none, b, (b.length : Int), false⟩) := by
    simp [SqlDir.write, SqlDir.writable, modeWB, pySliceTo, pySliceFrom,
      sliceIndex]
  have hclose : (⟨p, modeWB, true, none, b, (b.length : Int), false⟩ :
      SqlDir).close st =
      (⟨p, modeWB, true, none, b, (b.length : Int), true⟩,
       ⟨upsertRecord st.pending p b, upsertRecord st.pending p b⟩) := rfl
  have hreopen : SqlDir.init p modeRB
      ⟨upsertRecord st.pending p b, upsertRecord st.pending p b⟩ none =
      ⟨p, modeRB, true, none, b, 0, false⟩ := by
    simp [SqlDir.init, Store.get, modeRB, lookupRecord_upsertRecord]
  have hread : (⟨p, modeRB, true, none, b, 0, false⟩ : SqlDir).read (-1) =
      .ok (.bytes b, ⟨p, modeRB, true, none, b, (b.length : Int), false⟩) := by
    simp [SqlDir.read, SqlDir.readable, SqlDir.emit, modeRB, pySliceFrom,
      sliceIndex]
  rw [writeCloseRead, hinit, hwrite]
  dsimp only
  rw [hclose]
  dsimp only
  rw [hreopen, hread]

/-- Claim C6: writing a at p and closing, then opening p in append mode
(landing at position length of a), writing b and closing, then reading p
to end yields the concatenation of a and b, over any starting store. -/
theorem C6_append_accumulates (st : Store) (p : String) (a b : Bytes) :
    appendRoundTrip st p a b = .ok ((a.length : Int), .bytes (a ++ b)) := by
  have hinit : SqlDir.init p modeWB st none =
      ⟨p, modeWB, true, none, [], 0, false⟩ := rfl
  have hwrite : (⟨p, modeWB, true, none, [], 0, false⟩ : SqlDir).write
      (.bytes a) =
      .ok (a.length, ⟨p, modeWB, true, none, a, (a.length : Int), false⟩) := by
    simp [SqlDir.write, SqlDir.writable, modeWB, pySliceTo, pySliceFrom,
      sliceIndex]
  have hclose1 : (⟨p, modeWB, true, none, a, (a.length : Int), false⟩ :
      SqlDir).close st =
      (⟨p, modeWB, true, none, a, (a.length : Int), true⟩,
       ⟨upsertRecord st.pending p a, upsertRecord st.pending p a⟩) := rfl
  have hopenA : SqlDir.init p modeAB
      ⟨upsertRecord st.pending p a, upsertRecord st.pending p a⟩ none =
      ⟨p, modeAB, true, none, a, (a.length : Int), false⟩ := by
    simp [SqlDir.init, Store.get, modeAB, lookupRecord_upsertRecord]
  have hwriteB : (⟨p, modeAB, true, none, a, (a.length : Int), false⟩ :
      SqlDir).write (.bytes b) =
      .ok (b.length, ⟨p, modeAB, true, none, a ++ b,
        ((a.length : Int) + (b.length : Int)), false⟩) := by
    have hTo : pySliceTo a (a.length : Int) = a := by
      rw [pySliceTo_nonneg _ _ (Int.natCast_nonneg _), Int.toNat_natCast,
        List.take_length]
    have hFrom : pySliceFrom a ((a.length : Int) + (b.length : Int)) = [] := by
      rw [show (a.length : Int) + (b.length : Int) =
            ((a.length + b.length : Nat) : Int) by push_cast; ring,
        pySliceFrom_nonneg _ _ (Int.natCast_nonneg _), Int.toNat_natCast]
      exact List.drop_of_length_le (by omega)
    simp [SqlDir.write, SqlDir.writable, modeAB, hTo, hFrom]
  have hclose2 : (⟨p, modeAB, true, none, a ++ b,
      ((a.length : Int) + (b.length : Int)), false⟩ : SqlDir).close
      ⟨upsertRecord st.pending p a, upsertRecord st.pending p a⟩ =
      (⟨p, modeAB, true, none, a ++ b,
        ((a.length : Int) + (b.length : Int)), true⟩,
       ⟨upsertRecord (upsertRecord st.pending p a) p (a ++ b),
        upsertRecord (upsertRecord st.pending p a) p (a ++ b)⟩) := rfl
  have hopenR : SqlDir.init p modeRB
      ⟨upsertRecord (upsertRecord st.pending p a) p (a ++ b),
       upsertRecord (upsertRecord st.pending p a) p (a ++ b)⟩ none =
      ⟨p, modeRB, true, none, a ++ b, 0, false⟩ := by
    simp [SqlDir.init, Store.get, modeRB, lookupRecord_upsertRecord]
  have hread : (⟨p, modeRB, true, none, a ++ b, 0, false⟩ : SqlDir).read
      (-1) = .ok (.bytes (a ++ b), ⟨p, modeRB, true, none, a ++ b,
        ((a ++ b).length : Int), false⟩) := by
    simp [SqlDir.read, SqlDir.readable, SqlDir.emit, modeRB, pySliceFrom,
      sliceIndex]
  rw [appendRoundTrip, hinit, hwrite]
  dsimp only
  rw [hclose1]
  dsimp only
  rw [hopenA, hwriteB]
  dsimp only
  rw [hclose2]
  dsimp only
  rw [hopenR, hread]

end Sqldir

namespace Sqldir

/-- Claim C3: write rejects text input on a binary handle with the type
error, and on a text handle with the default utf-8 encoding it encodes
the text and splices the encoded bytes into the buffer, returning the
encoded byte count. -/
theorem C3_write_mode_typing (f : SqlDir) (h : f.closed = false)
    (hw : f.writable = true) :
    (f.isBinary = true → ∀ s : List Char,
      f.write (.str s) = .error .typeMismatch) ∧
    (f.isBinary = false → f.encoding = some utf8Name → ∀ s : List Char,
      f.write (.str s) = .ok ((utf8Encode s).length,
        { f with
          buffer := pySliceTo f.buffer f.pos ++ utf8Encode s ++
                    pySliceFrom f.buffer (f.pos + (utf8Encode s).length),
          pos := f.pos + (utf8Encode s).length })) := by
  constructor
  · intro hb s
    simp [SqlDir.write, h, hw, hb]
  · intro hb henc s
    simp [SqlDir.write, h, hw, hb, henc]

/-- Concrete application of the write mode-typing theorem: text into a
binary handle raises, text into a text handle is stored utf-8 encoded. -/
theorem C3_write_mode_typing_witness :
    rwFile.write (.str ['A']) = .error .typeMismatch ∧
    textFile.write (.str ['C']) =
      .ok (1, { textFile with buffer := [67, 66], pos := 1 }) := by
  refine ⟨(C3_write_mode_typing rwFile rfl rfl).1 rfl ['A'], ?_⟩
  exact ((C3_write_mode_typing textFile rfl rfl).2 rfl rfl ['C']).trans rfl

/-- Claim C4: at any nonnegative position, writing bytes splices them
over the buffer at that position: the prefix before the position is
preserved, the data occupies the next offsets, anything after the
written span is preserved, the buffer extends when the span passes the
end, the position advances by the byte count and write returns it. -/
theorem C4_write_overwrites_in_place (f : SqlDir) (d B : Bytes)
    (h : f.closed = false) (hw : f.writable = true) (hp : 0 ≤ f.pos)
    (hB : B = f.buffer.take f.pos.toNat ++ d ++
              f.buffer.drop (f.pos.toNat + d.length)) :
    f.write (.bytes d) =
      .ok (d.length, { f with buffer := B, pos := f.pos + d.length }) ∧
    (∀ i : Nat, i < f.pos.toNat → i < f.buffer.length →
      B[i]? = f.buffer[i]?) ∧
    (∀ j : Nat, j < d.length →
      B[min f.pos.toNat f.buffer.length + j]? = d[j]?) ∧
    (∀ i : Nat, f.pos.toNat + d.length ≤ i → i < f.buffer.length →
      B[i]? = f.buffer[i]?) := by
  have hTo : pySliceTo f.buffer f.pos = f.buffer.take f.pos.toNat :=
    pySliceTo_nonneg _ _ hp
  have hFrom : pySliceFrom f.buffer (f.pos + (d.length : Int)) =
      f.buffer.drop (f.pos.toNat + d.length) := by
    rw [pySliceFrom_nonneg _ _ (by omega), Int.toNat_add hp
      (Int.natCast_nonneg _), Int.toNat_natCast]
  refine ⟨?_, ?_, ?_, ?_⟩
  · simp [SqlDir.write, h, hw, hTo, hFrom, hB]
  · intro i hip hil
    subst hB
    rw [List.getElem?_append_left (by simp; omega),
      List.getElem?_append_left (by simp; omega),
      List.getElem?_take_of_lt hip]
  · intro j hj
    subst hB
    rw [List.append_assoc,
      List.getElem?_append_right (by simp),
      List.length_take, Nat.add_sub_cancel_left,
      List.getElem?_append_left hj]
  · intro i hi hil
    subst hB
    have hplen : f.pos.toNat < f.buffer.length := by omega
    have hlt : min f.pos.toNat f.buffer.length = f.pos.toNat := by omega
    rw [List.append_assoc,
      List.getElem?_append_right (by simp [hlt]; omega),
      List.getElem?_append_right (by simp [hlt]; omega),
      List.getElem?_drop]
    congr 1
    simp only [List.length_take]
    omega

/-- Concrete application of the splice theorem: two bytes written over
the middle of a six-byte buffer replace exactly two bytes. -/
theorem C4_write_overwrites_in_place_witness :
    ({ rwFile with pos := 2 } : SqlDir).write (.bytes [55, 56]) =
      .ok (2, { rwFile with
                buffer := [97, 98, 55, 56, 101, 102], pos := 4 }) ∧
    [97, 98, 55, 56, 101, 102][2]? = some 55 := by
  have h := C4_write_overwrites_in_place { rwFile with pos := 2 } [55, 56]
    [97, 98, 55, 56, 101, 102] rfl rfl (by decide) rfl
  exact ⟨h.1.trans rfl, h.2.2.1 0 (by decide)⟩

end Sqldir

namespace Sqldir

theorem pySliceTo_neg (buf : Bytes) (p : Int) (h : p < 0) :
    pySliceTo buf p = buf.take ((buf.length + p).toNat) := by
  simp [pySliceTo, sliceIndex, h]

/-- Claim C1 (failing input): on the single line abcdef followed by a
newline, a readline with cap 3 returns the first three bytes but leaves
the position at 7, the end of the whole line, instead of rewinding it to
the truncation point 3: the source computes the rewind amount from the
length of the already-truncated line, which always makes it zero.  The
following readline therefore returns the empty result instead of the
rest of the line, so repeated capped reads lose the remainder. -/
theorem C1_capped_readline_does_not_rewind :
    lineFile.readline 3 =
      .ok (.bytes [97, 98, 99], { lineFile with pos := 7 }) ∧
    ({ lineFile with pos := 7 } : SqlDir).readline (-1) =
      .ok (.bytes [], { lineFile with pos := 7 }) ∧
    (7 : Int) ≠ 3 :=
  ⟨rfl, rfl, by decide⟩

/-- Claim C2 (counterexample): after seek(-2, 0) on the six-byte buffer
abcdef, a full read returns the final two bytes rather than an empty
result, and a write of two bytes yields a twelve-byte buffer that
repeats the whole original content rather than extending it. -/
theorem C2_negative_position_counterexample :
    rwFile.seek (-2) 0 = .ok (-2, rwFileNeg) ∧
    rwFileNeg.read (-1) =
      .ok (.bytes [101, 102], { rwFileNeg with pos := 6 }) ∧
    PyData.bytes [101, 102] ≠ PyData.bytes [] ∧
    rwFileNeg.write (.bytes [88, 89]) =
      .ok (2, { rwFileNeg with
        buffer := [97, 98, 99, 100, 88, 89, 97, 98, 99, 100, 101, 102],
        pos := 0 }) ∧
    [97, 98, 99, 100, 88, 89, 97, 98, 99, 100, 101, 102] ≠
      rwFileNeg.buffer ++ [88, 89] :=
  ⟨rfl, rfl, by decide, rfl, by decide⟩

/-- Claim C2 (amended): with a negative position the degradation
follows the negative-index slice convention rather than an empty read
or a plain extension.  A full read selects the suffix of the buffer
from index length + position (clamped at zero) and moves the position
to the end: in binary mode it returns those bytes without error, while
in text mode it decodes them and raises a decode error exactly when the
suffix is not valid in the encoding, as when the negative index splits
a multi-byte character.  A write of bytes does not raise; it splices
the data between the prefix of length (length + position, clamped at
zero) and the suffix the resolved end index selects, which can repeat
existing content. -/
theorem C2_negative_position_amended (f : SqlDir) (d : Bytes)
    (h : f.closed = false) (hp : f.pos < 0) :
    (f.readable = true → f.isBinary = true →
      f.read (-1) = .ok
        (.bytes (f.buffer.drop (((f.buffer.length : Int) + f.pos).toNat)),
         { f with pos := (f.buffer.length : Int) })) ∧
    (f.readable = true → f.isBinary = false →
      ∀ enc, f.encoding = some enc →
      f.read (-1) =
        (match
          utf8Decode (f.buffer.drop (((f.buffer.length : Int) + f.pos).toNat))
        with
        | some s => .ok (.str s, { f with pos := (f.buffer.length : Int) })
        | none => .error .decodeFailure)) ∧
    (f.writable = true →
      f.write (.bytes d) = .ok (d.length,
        { f with
          buffer :=
            f.buffer.take (((f.buffer.length : Int) + f.pos).toNat) ++ d ++
            f.buffer.drop (sliceIndex f.buffer.length (f.pos + d.length)),
          pos := f.pos + d.length })) := by
  refine ⟨?_, ?_, ?_⟩
  · intro hr hb
    simp [SqlDir.read, h, hr, hb, SqlDir.emit, pySliceFrom_neg _ _ hp]
  · intro hr hb enc henc
    rcases hdec : utf8Decode
        (f.buffer.drop (((f.buffer.length : Int) + f.pos).toNat)) with _ | s <;>
      simp [SqlDir.read, h, hr, hb, SqlDir.emit, henc,
        pySliceFrom_neg _ _ hp, hdec]
  · intro hw
    simp [SqlDir.write, h, hw, pySliceTo_neg _ _ hp, pySliceFrom]

/-- Concrete application of the amended negative-position theorem: the
binary read of the tail, the text-mode decode error on a split
character, and the duplicating write. -/
theorem C2_negative_position_amended_witness :
    rwFileNeg.read (-1) =
      .ok (.bytes [101, 102], { rwFileNeg with pos := 6 }) ∧
    accentFile.read (-1) = .error .decodeFailure ∧
    rwFileNeg.write (.bytes [88, 89]) =
      .ok (2, { rwFileNeg with
        buffer := [97, 98, 99, 100, 88, 89, 97, 98, 99, 100, 101, 102],
        pos := 0 }) := by
  have h := C2_negative_position_amended rwFileNeg [88, 89] rfl (by decide)
  have h2 := C2_negative_position_amended accentFile [] rfl (by decide)
  exact ⟨(h.1 rfl rfl).trans rfl,
    (h2.2.1 rfl rfl utf8Name rfl).trans rfl,
    (h.2.2 rfl).trans rfl⟩

end Sqldir

namespace Sqldir

theorem utf8Decode_ne_nil {l : Bytes} {s : List Char}
    (h : utf8Decode l = some s) (hl : l ≠ []) : s ≠ [] := by
  match l, hl with
  | b :: bs, _ => exact utf8Decode_cons_ne_nil h

/-- Within bounds, the scanned line slice is never empty: it holds at
least the byte at the position. -/
theorem lineSpan_fst_ne_nil (f : SqlDir) (hp0 : 0 ≤ f.pos)
    (hlt : f.pos < (f.buffer.length : Int)) :
    (SqlDir.lineSpan f).1 ≠ [] := by
  have hpn : f.pos.toNat < f.buffer.length := by omega
  unfold SqlDir.lineSpan
  rcases hfind : pyFind f.buffer 10 f.pos with _ | idx
  · simp only
    rw [pySliceFrom_nonneg _ _ hp0]
    intro hnil
    have hlen := congrArg List.length hnil
    rw [List.length_drop] at hlen
    simp at hlen
    omega
  · simp only
    have hb := pyFind_bounds hfind
    rw [sliceIndex_nonneg _ _ hp0] at hb
    have h1 : sliceIndex f.buffer.length ((idx : Int) + 1) = idx + 1 := by
      rw [show ((idx : Int) + 1) = ((idx + 1 : Nat) : Int) by push_cast; ring,
        sliceIndex_nonneg _ _ (Int.natCast_nonneg _), Int.toNat_natCast]
      exact Nat.min_eq_left (by omega)
    intro hnil
    have hlen := congrArg List.length hnil
    rw [pySlice, h1, sliceIndex_nonneg _ _ hp0] at hlen
    simp [List.length_drop, List.length_take] at hlen
    omega

/-- The scanned end position is never negative. -/
theorem lineSpan_snd_nonneg (f : SqlDir) : 0 ≤ (SqlDir.lineSpan f).2 := by
  unfold SqlDir.lineSpan
  rcases pyFind f.buffer 10 f.pos with _ | idx
  · simp
  · simp only
    omega

/-- Claim C10: starting iteration resets the position to zero; while the
position is inside the buffer one step returns and advances exactly as
an uncapped readline from the same state, with identical errors; at or
past the end iteration stops exactly where readline returns the empty
result; a step from a nonnegative position returns a non-empty line and
never moves the position below zero, so the equivalence covers every
state the iteration protocol reaches. -/
theorem C10_iteration_matches_readline (f : SqlDir) (hc : f.closed = false)
    (hr : f.readable = true) :
    f.iterStart = .ok { f with pos := 0 } ∧
    (f.pos < (f.buffer.length : Int) →
      f.next = (f.readline (-1)).map (fun df => (some df.1, df.2))) ∧
    ((f.buffer.length : Int) ≤ f.pos →
      f.next = .ok (none, f) ∧
      f.readline (-1) =
        .ok ((if f.isBinary then .bytes [] else .str []), f)) ∧
    (0 ≤ f.pos → f.pos < (f.buffer.length : Int) → ∀ d f1,
      f.readline (-1) = .ok (d, f1) → d.isEmptyData = false) ∧
    (0 ≤ f.pos → ∀ d f1, f.next = .ok (d, f1) → 0 ≤ f1.pos) := by
  have hneg : ¬ ((0 : Int) ≤ -1) := by decide
  refine ⟨by simp [SqlDir.iterStart, hc], ?_, ?_, ?_, ?_⟩
  · intro hlt
    have hnle : ¬ ((f.buffer.length : Int) ≤ f.pos) := Int.not_le.mpr hlt
    simp only [SqlDir.next, SqlDir.readline, hc, hr, hnle, hneg,
      Bool.not_true, Bool.false_eq_true, if_false, false_and, ite_false]
    cases hemit : f.emit (SqlDir.lineSpan f).1 <;> simp [hemit, Except.map]
  · intro hge
    constructor <;> simp [SqlDir.next, SqlDir.readline, hc, hr, hge]
  · intro hp0 hlt d f1 hread
    have hnle : ¬ ((f.buffer.length : Int) ≤ f.pos) := Int.not_le.mpr hlt
    have hne := lineSpan_fst_ne_nil f hp0 hlt
    simp only [SqlDir.readline, hc, hr, hnle, hneg, Bool.not_true,
      Bool.false_eq_true, if_false, false_and, ite_false] at hread
    rcases hemit : f.emit (SqlDir.lineSpan f).1 with e | out
    · rw [hemit] at hread
      exact absurd hread (by simp)
    · rw [hemit] at hread
      simp only [Except.ok.injEq, Prod.mk.injEq] at hread
      obtain ⟨rfl, rfl⟩ := hread
      unfold SqlDir.emit at hemit
      split at hemit
      · simp only [Except.ok.injEq] at hemit
        subst hemit
        simpa [PyData.isEmptyData] using hne
      · split at hemit
        · exact absurd hemit (by simp)
        · rcases hdec : utf8Decode (SqlDir.lineSpan f).1 with _ | s
          · rw [hdec] at hemit
            exact absurd hemit (by simp)
          · rw [hdec] at hemit
            simp only [Except.ok.injEq] at hemit
            subst hemit
            simpa [PyData.isEmptyData] using utf8Decode_ne_nil hdec hne
  · intro hp0 d f1 hnext
    by_cases hge : (f.buffer.length : Int) ≤ f.pos
    · simp only [SqlDir.next, hc, hge, Bool.false_eq_true, if_false,
        if_true, Except.ok.injEq, Prod.mk.injEq] at hnext
      obtain ⟨rfl, rfl⟩ := hnext
      exact hp0
    · simp only [SqlDir.next, hc, hge, Bool.false_eq_true, if_false] at hnext
      rcases hemit : f.emit (SqlDir.lineSpan f).1 with e | out
      · rw [hemit] at hnext
        exact absurd hnext (by simp)
      · rw [hemit] at hnext
        simp only [Except.ok.injEq, Prod.mk.injEq] at hnext
        obtain ⟨rfl, rfl⟩ := hnext
        exact lineSpan_snd_nonneg f

/-- Concrete application of the iteration theorem. -/
theorem C10_iteration_matches_readline_witness :
    lineFile.iterStart = .ok { lineFile with pos := 0 } ∧
    lineFile.next = (lineFile.readline (-1)).map (fun df => (some df.1, df.2)) := by
  have h := C10_iteration_matches_readline lineFile rfl rfl
  exact ⟨h.1, h.2.1 (by decide)⟩

end Sqldir
